import Mathlib

/-!
Verification development for the site-selection point generator
(src/site_selection.py).

The program composes spatial constraints into a valid area, then greedily
packs points into it: each accepted point removes a disk of radius
`min_distance` around itself from the remaining area before the next point
is sampled.

The external geometry engine (shapely / geopandas) is modelled over a
discrete plane: a geometry is a finite set of integer cells, a
GeoDataFrame is a list of geometry rows, and the engine's operations
(overlay intersection / difference, explode, buffer, bounds, containment)
are set algebra on those rows.  Distances are compared in squared form so
that everything stays in exact arithmetic (`distance p q >= d` becomes
`d ^ 2 <= dist2 p q` for nonnegative `d`).  The global `random.uniform`
source is modelled as an explicit stream `rng : Nat -> Nat` together with
the current position of the global state in that stream; one coordinate
draw consumes one stream element.  Unbounded `while True:` loops are
modelled with a fuel argument: a `none` result means the fuel ran out,
i.e. the loop was still running.
-/

/-- A point of the working plane (model of a shapely `Point` and of a cell
of a polygon, in the projected reference system). -/
abbrev Cell : Type := ℤ × ℤ

/-- One geometry value (polygon or multipolygon), as the finite set of
integer cells it covers. -/
abbrev Geo : Type := Finset Cell

/-- A GeoDataFrame: an ordered list of geometry rows. -/
abbrev GDF : Type := List Geo

/-- The set of all cells covered by any row of a GeoDataFrame. -/
def unionGDF (A : GDF) : Geo := A.foldr (fun g acc => g ∪ acc) ∅

/-- Model of `gpd.overlay(A, B, how='intersection')`: all pairwise
intersections of rows of `A` with rows of `B`, keeping the nonempty
results. -/
def overlayIntersection (A B : GDF) : GDF :=
  (A.flatMap (fun a => B.map (fun b => a ∩ b))).filter (fun g => decide (g ≠ ∅))

/-- Model of `gpd.overlay(A, B, how='difference')`: each row of `A` minus
the union of `B`, keeping the nonempty results. -/
def overlayDifference (A B : GDF) : GDF :=
  (A.map (fun a => a \ unionGDF B)).filter (fun g => decide (g ≠ ∅))

/-- Model of `GeoDataFrame.explode(ignore_index=True)`: split multipart
rows into their parts.  In the discrete model each nonempty geometry is a
single part, so exploding keeps the nonempty rows (an empty geometry has
no parts). -/
def explode (A : GDF) : GDF := A.filter (fun g => decide (g ≠ ∅))

/-- Squared Euclidean distance between two cells. -/
def dist2 (p q : Cell) : ℤ := (p.1 - q.1) ^ 2 + (p.2 - q.2) ^ 2

/-- Model of `point.buffer(r)`: the disk of radius `r` around `p`, i.e.
all cells at squared distance at most `r ^ 2` (searched inside the
bounding box of side `2 * ceil r`). -/
def bufferDisk (p : Cell) (r : ℚ) : Geo :=
  ((Finset.Icc (p.1 - ⌈r⌉) (p.1 + ⌈r⌉)) ×ˢ (Finset.Icc (p.2 - ⌈r⌉) (p.2 + ⌈r⌉))).filter
    (fun q => ((dist2 q p : ℤ) : ℚ) ≤ r ^ 2)

/-- Constraint kinds (`ConstraintType` in the source). -/
inductive ConstraintType
  | MUST_WITHIN
  | MUST_OUTSIDE
  | PREFER_WITHIN
  deriving DecidableEq

/-- A spatial constraint (`SpatialConstraint` in the source): a named
geometry with a kind and a priority (lower value = higher priority). -/
structure SpatialConstraint where
  name : String
  geometry : GDF
  ctype : ConstraintType
  priority : ℤ := 0
  deriving DecidableEq

/-- Exceptions the modelled code can raise. -/
inductive PyErr
  /-- `ValueError` from `add_constraint`: a MUST_OUTSIDE constraint needs a
  valid area first (line 74). -/
  | valueErrorNoBase
  /-- `AttributeError` from `add_constraint`, line 76: the write of
  `valid_area.gpkg` reads `self.config.output_dir`, but `ConstraintValidator`
  never has a `config` attribute. -/
  | attributeErrorNoConfig
  /-- `ValueError` from `get_valid_area`, line 87: no constraint set. -/
  | valueErrorNoConstraints
  /-- `ValueError` from `pd.concat([])` in `get_valid_area`, line 114,
  raised when every layer and the remaining area are empty. -/
  | valueErrorConcatEmpty
  /-- `NameError` from the `except` handler of `generate` (line 239): it
  returns `valid_points`, which is unbound when the first
  `get_valid_area` call raised. -/
  | nameErrorValidPoints
  deriving DecidableEq

/-- Mutable state of `ConstraintValidator`: the current valid area (None
until a MUST_WITHIN constraint arrives) and the buffered PREFER_WITHIN
areas with their priorities. -/
structure ValidatorState where
  valid_area : Option GDF
  prefer_areas : List (ℤ × GDF)
  deriving DecidableEq

/-- `ConstraintValidator.__init__`. -/
def initValidator : ValidatorState := ⟨none, []⟩

/-- `ConstraintValidator.add_constraint`.  Returns the state after the
call together with the exception it raised, if any.  The state component
reflects every mutation performed before a raise: a MUST_OUTSIDE
constraint with a base region first replaces the valid area by the
difference and only then hits the `self.config` AttributeError. -/
def add_constraint (st : ValidatorState) (c : SpatialConstraint) :
    ValidatorState × Option PyErr :=
  match c.ctype with
  | ConstraintType.MUST_WITHIN =>
    match st.valid_area with
    | none => ({ st with valid_area := some c.geometry }, none)
    | some va => ({ st with valid_area := some (overlayIntersection va c.geometry) }, none)
  | ConstraintType.MUST_OUTSIDE =>
    match st.valid_area with
    | none => (st, some PyErr.valueErrorNoBase)
    | some va => ({ st with valid_area := some (overlayDifference va c.geometry) },
        some PyErr.attributeErrorNoConfig)
  | ConstraintType.PREFER_WITHIN =>
    ({ st with prefer_areas := st.prefer_areas ++ [(c.priority, c.geometry)] }, none)

/-- Stable insertion of one priority-keyed area: the new element goes
after every element whose priority is less than or equal to its own. -/
def insertSorted (x : ℤ × GDF) : List (ℤ × GDF) → List (ℤ × GDF)
  | [] => [x]
  | y :: ys => if y.1 ≤ x.1 then y :: insertSorted x ys else x :: y :: ys

/-- Model of `self.prefer_areas.sort(key=lambda x: x[0])`: a stable sort,
ascending by priority. -/
def sortPrefs (l : List (ℤ × GDF)) : List (ℤ × GDF) :=
  l.foldl (fun acc x => insertSorted x acc) []

/-- The layering loop of `get_valid_area` (lines 100-107): for each
preference area in order, intersect it with the remaining area (keeping
the layer only when nonempty) and subtract it from the remaining area.
Returns the kept layers and the final remaining area. -/
def layerLoop : GDF → List GDF → List GDF × GDF
  | rem, [] => ([], rem)
  | rem, p :: ps =>
    ((if overlayIntersection rem p = [] then [] else [overlayIntersection rem p]) ++
        (layerLoop (overlayDifference rem p) ps).1,
      (layerLoop (overlayDifference rem p) ps).2)

/-- `ConstraintValidator.get_valid_area`.  Sorts the preference areas in
place (returned in the new state), then either returns the exploded valid
area (no preferences) or builds the priority layers, appends the
remaining area when nonempty, concatenates and explodes.  Raises when no
constraint was set, or — via `pd.concat([])` — when there is nothing to
concatenate. -/
def get_valid_area (st : ValidatorState) : Except PyErr (ValidatorState × GDF) :=
  match st.valid_area with
  | none => Except.error PyErr.valueErrorNoConstraints
  | some va =>
    if sortPrefs st.prefer_areas = [] then
      Except.ok ({ st with prefer_areas := sortPrefs st.prefer_areas }, explode va)
    else
      if (layerLoop va ((sortPrefs st.prefer_areas).map Prod.snd)).1 ++
          (if (layerLoop va ((sortPrefs st.prefer_areas).map Prod.snd)).2 = [] then []
            else [(layerLoop va ((sortPrefs st.prefer_areas).map Prod.snd)).2]) = [] then
        Except.error PyErr.valueErrorConcatEmpty
      else
        Except.ok ({ st with prefer_areas := sortPrefs st.prefer_areas },
          explode (((layerLoop va ((sortPrefs st.prefer_areas).map Prod.snd)).1 ++
            (if (layerLoop va ((sortPrefs st.prefer_areas).map Prod.snd)).2 = [] then []
              else [(layerLoop va ((sortPrefs st.prefer_areas).map Prod.snd)).2])).flatten))

/-- `ConstraintValidator.update_valid_area`: replace the valid area by its
exploded difference with the excluded area. -/
def update_valid_area (st : ValidatorState) (excluded : GDF) : ValidatorState :=
  { st with valid_area := st.valid_area.map (fun va => explode (overlayDifference va excluded)) }

/-- Generator field configuration entry (`Fields` in the source). -/
structure Fields where
  field_name : String
  default_value : Option ℤ := none
  dtype : Option String := none
  deriving DecidableEq

/-- `GeneratorConfig`.  Note that no random seed is part of the
configuration. -/
structure GeneratorConfig where
  min_distance : ℚ := 230
  max_distance : ℚ := 580
  max_attempts : ℕ := 1000000
  target_points : Option ℕ := none
  output_dir : String := "output"
  score_threshold : ℚ := 1 / 2
  fields : List Fields := [⟨"site_id", none, none⟩, ⟨"site_longitude", none, none⟩,
    ⟨"site_latitude", none, none⟩, ⟨"site_height", none, none⟩, ⟨"site_sector", some 3, none⟩]
  deriving DecidableEq

/-- `PointGenerator.create_circle`: a one-row GeoDataFrame holding the
disk of the given radius around the point. -/
def create_circle (p : Cell) (radius : ℚ) : GDF := [bufferDisk p radius]

/-- Model of `shapely` bounds of a geometry: `(minx, miny, maxx, maxy)`
(zero on an empty geometry; the samplers only use bounds of nonempty
rows). -/
def boundsOf (g : Geo) : ℤ × ℤ × ℤ × ℤ :=
  (WithBot.unbot' 0 (g.image Prod.fst).min,
    WithBot.unbot' 0 (g.image Prod.snd).min,
    WithTop.untop' 0 (g.image Prod.fst).max,
    WithTop.untop' 0 (g.image Prod.snd).max)

/-- Model of one `random.uniform(lo, hi)` draw inside the bounding box:
the stream value `s` is reduced to the integer range `[lo, hi]`. -/
def uniformInt (lo hi : ℤ) (s : ℕ) : ℤ :=
  lo + ((s % (hi + 1 - lo).toNat : ℕ) : ℤ)

/-- The unbounded rejection loop of `get_random_point` (lines 185-190):
draw a point uniformly in the bounding box of `g`, return it when
contained; `fuel` counts how many iterations of the `while True:` loop we
are willing to unfold, and `none` means the loop was still running after
`fuel` attempts.  Each attempt consumes two stream elements. -/
def rejectionLoop (g : Geo) (rng : ℕ → ℕ) : ℕ → ℕ → Option (Cell × ℕ)
  | 0, _ => none
  | fuel + 1, k =>
    if ((uniformInt (boundsOf g).1 (boundsOf g).2.2.1 (rng k),
          uniformInt (boundsOf g).2.1 (boundsOf g).2.2.2 (rng (k + 1))) : Cell) ∈ g then
      some ((uniformInt (boundsOf g).1 (boundsOf g).2.2.1 (rng k),
        uniformInt (boundsOf g).2.1 (boundsOf g).2.2.2 (rng (k + 1))), k + 2)
    else
      rejectionLoop g rng fuel (k + 2)

/-- `PointGenerator.get_random_point`.  The search area is exploded; the
`for` loop then enters the `while True:` rejection loop on the first
polygon, and since that inner loop has no exit other than `return point`,
the `for` loop never advances to a second polygon and `return None` (the
`some none` result) is reached exactly when there are zero polygons.  An
outer `none` means the rejection loop was still running when the fuel ran
out. -/
def get_random_point (area : GDF) (rng : ℕ → ℕ) (k fuel : ℕ) :
    Option (Option (Cell × ℕ)) :=
  match explode area with
  | [] => some none
  | g :: _ =>
    match rejectionLoop g rng fuel k with
    | none => none
    | some r => some (some r)

/-- Modelled from the spec: the bounded per-polygon scan of §4.3, which is
missing from the source (`get_random_point`'s rejection loop has no
attempt cap — the cap is mandated by the spec as a correctness
requirement).  Each polygon is given `cap` attempts (two stream draws
each); when the cap is exhausted the scan moves to the next polygon, and
when every polygon failed it reports no point found. -/
def cappedScan (rng : ℕ → ℕ) (cap : ℕ) : List Geo → ℕ → Option (Cell × ℕ)
  | [], _ => none
  | g :: rest, k =>
    match rejectionLoop g rng cap k with
    | some r => some r
    | none => cappedScan rng cap rest (k + 2 * cap)

/-- Modelled from the spec: `get_random_point` with the bounded
per-polygon attempt budget of §4.3 (the source's sampler lacks the cap).
Scans the exploded polygons in stored priority order, giving each at most
`cap` attempts, and returns `none` ("no point found") when the cap is
exhausted for every polygon. -/
def get_random_point_capped (area : GDF) (rng : ℕ → ℕ) (k cap : ℕ) :
    Option (Cell × ℕ) :=
  cappedScan rng cap (explode area) k

/-- How a run of the packing loop ended. -/
inductive StopReason
  /-- `break` at the top of the loop: the target point count is reached. -/
  | targetReached
  /-- the `while` condition failed: the valid area has no rows left. -/
  | regionEmpty
  /-- `break` after the sampler returned None. -/
  | samplerNone
  /-- an exception inside the loop body reached the `except` handler,
  which returns the points accepted so far. -/
  | errorCaught
  deriving DecidableEq

/-- Result of a terminated packing loop: the accepted points in
acceptance order, why the loop stopped, and the final validator state. -/
structure GenOut where
  points : List Cell
  reason : StopReason
  st : ValidatorState
  deriving DecidableEq

/-- Python truthiness of the target test
`self.config.target_points and len(valid_points) >= self.config.target_points`:
an absent or zero target never stops the loop. -/
def targetHit (cfg : GeneratorConfig) (n : ℕ) : Bool :=
  match cfg.target_points with
  | none => false
  | some t => decide (t ≠ 0) && decide (t ≤ n)

/-- The packing loop of `PointGenerator.generate` (lines 215-229),
parametrised by the sampling routine (`sample area k` returns `none` when
the sampler diverged, `some none` for Python's `None`, and
`some (some (p, k2))` for a point with the advanced stream position).
Each accepted point is appended, a disk of radius `min_distance` is
removed from the validator's area, and the area is recomputed; a `none`
result means the fuel ran out while the loop was still running. -/
def genLoop (cfg : GeneratorConfig) (sample : GDF → ℕ → Option (Option (Cell × ℕ))) :
    ℕ → GDF → ValidatorState → ℕ → List Cell → Option GenOut
  | 0, _, _, _, _ => none
  | fuel + 1, area, st, k, acc =>
    if area.isEmpty then some ⟨acc, StopReason.regionEmpty, st⟩
    else if targetHit cfg acc.length then some ⟨acc, StopReason.targetReached, st⟩
    else
      match sample area k with
      | none => none
      | some none => some ⟨acc, StopReason.samplerNone, st⟩
      | some (some (p, k2)) =>
        match get_valid_area (update_valid_area st (create_circle p cfg.min_distance)) with
        | Except.error _ => some ⟨acc ++ [p], StopReason.errorCaught,
            update_valid_area st (create_circle p cfg.min_distance)⟩
        | Except.ok (st3, area2) => genLoop cfg sample fuel area2 st3 k2 (acc ++ [p])

/-- `PointGenerator.generate` with the source's (uncapped) sampler.  The
initial `get_valid_area` failure reaches the `except` handler before
`valid_points` is bound, so it surfaces as a NameError; otherwise the
packing loop runs.  `n` is the outer fuel, `m` the per-sampling-call fuel
for the unbounded rejection loop. -/
def generate (cfg : GeneratorConfig) (st : ValidatorState) (rng : ℕ → ℕ)
    (k n m : ℕ) : Option (Except PyErr GenOut) :=
  match get_valid_area st with
  | Except.error _ => some (Except.error PyErr.nameErrorValidPoints)
  | Except.ok (st1, area1) =>
    (genLoop cfg (fun a j => get_random_point a rng j m) n area1 st1 k []).map Except.ok

/-- Modelled from the spec: `generate` run with the spec-mandated bounded
per-polygon attempt budget (`max_attempts` of the configuration as the
cap), the variant the termination claim is about. -/
def generateCapped (cfg : GeneratorConfig) (st : ValidatorState) (rng : ℕ → ℕ)
    (k n : ℕ) : Option (Except PyErr GenOut) :=
  match get_valid_area st with
  | Except.error _ => some (Except.error PyErr.nameErrorValidPoints)
  | Except.ok (st1, area1) =>
    (genLoop cfg (fun a j => some (get_random_point_capped a rng j cfg.max_attempts))
        n area1 st1 k []).map Except.ok

/-- `main`-style application of a constraint list to a fresh validator,
keeping the mutated state of every call (exceptions discarded). -/
def applyConstraints (cs : List SpatialConstraint) : ValidatorState :=
  cs.foldl (fun st c => (add_constraint st c).1) initValidator

/-- `outsideAfterWithin seen cs` holds when every MUST_OUTSIDE constraint
in `cs` is preceded by a MUST_WITHIN one (`seen` records whether one was
already applied). -/
def outsideAfterWithin : Bool → List SpatialConstraint → Bool
  | _, [] => true
  | seen, c :: cs =>
    (if c.ctype = ConstraintType.MUST_OUTSIDE then seen else true) &&
      outsideAfterWithin (seen || decide (c.ctype = ConstraintType.MUST_WITHIN)) cs

/-- Definition written from the spec's words for the layering claim: sort
the preferences ascending by priority; for each preference in order take
`intersect(remaining, p)` as a layer and continue with
`difference(remaining, p)`. -/
def specLayers : GDF → List GDF → List GDF × GDF
  | rem, [] => ([], rem)
  | rem, p :: ps =>
    (overlayIntersection rem p :: (specLayers (overlayDifference rem p) ps).1,
      (specLayers (overlayDifference rem p) ps).2)

/-- Definition written from the spec's words for the layering claim: the
layered valid area is the sorted-preference layer sequence, keeping only
non-empty layers, with the final remaining area appended as the last
(lowest-priority) layer, concatenated and exploded into simple polygons
(higher-priority polygons therefore come first). -/
def specLayeredArea (va : GDF) (prefs : List (ℤ × GDF)) : GDF :=
  let lr := specLayers va ((sortPrefs prefs).map Prod.snd)
  explode ((lr.1.filter (fun l => decide (l ≠ [])) ++
    (if lr.2 = [] then [] else [lr.2])).flatten)

/-! Concrete fixtures used by the witness and counterexample theorems. -/

/-- A constant random stream whose draws always reduce to the lower-left
corner of the current bounding box. -/
def rng0 : ℕ → ℕ := fun _ => 0

/-- A two-cell search geometry: the cells (0,0) and (9,9). -/
def geoAB : Geo := {((0 : ℤ), (0 : ℤ)), ((9 : ℤ), (9 : ℤ))}

/-- A validator whose valid area is the two-cell geometry, no preferences. -/
def stA : ValidatorState := ⟨some [geoAB], []⟩

/-- A configuration with `min_distance = 1` and no target count. -/
def cfgA : GeneratorConfig := { min_distance := 1 }

/-- A polygon whose bounding box centre (1,1) is not part of it. -/
def polyC2 : Geo := {((0 : ℤ), (0 : ℤ)), ((2 : ℤ), (2 : ℤ))}

/-- A stream that always draws the value 1, mapping to the uncontained
centre of the bounding box of `polyC2`. -/
def rngC2 : ℕ → ℕ := fun _ => 1

/-- One-cell preference geometry at the origin. -/
def prefGeo : GDF := [{((0 : ℤ), (0 : ℤ))}]

/-- A PREFER_WITHIN constraint used before any MUST_WITHIN is applied. -/
def cPref : SpatialConstraint := ⟨"pref", prefGeo, ConstraintType.PREFER_WITHIN, 1⟩

/-- A MUST_OUTSIDE constraint used before any MUST_WITHIN is applied. -/
def cOut : SpatialConstraint := ⟨"out", prefGeo, ConstraintType.MUST_OUTSIDE, 0⟩

/-- A MUST_OUTSIDE constraint removing the cell (9,9). -/
def cOut9 : SpatialConstraint := ⟨"roads", [{((9 : ℤ), (9 : ℤ))}], ConstraintType.MUST_OUTSIDE, 0⟩

/-- Three-cell base area for the layering witness. -/
def geoW : Geo := {((0 : ℤ), (0 : ℤ)), ((5 : ℤ), (5 : ℤ)), ((9 : ℤ), (9 : ℤ))}

/-- Validator with two PREFER_WITHIN areas registered out of priority
order (priority 2 first, then priority 1). -/
def stW : ValidatorState :=
  ⟨some [geoW], [((2 : ℤ), [({((9 : ℤ), (9 : ℤ))} : Geo)]), ((1 : ℤ), [({((0 : ℤ), (0 : ℤ))} : Geo)])]⟩

/-- Validator whose valid area has no rows but which has a preference
area registered: `get_valid_area` has nothing to concatenate. -/
def stE : ValidatorState := ⟨some [], [((0 : ℤ), ([] : GDF))]⟩

/-- Constraint list: one MUST_WITHIN (the two-cell geometry) followed by
one MUST_OUTSIDE (the cell (9,9)). -/
def csW : List SpatialConstraint :=
  [⟨"w", [geoAB], ConstraintType.MUST_WITHIN, 0⟩, cOut9]

/-- Two far-apart cells for the determinism counterexample. -/
def geoC8 : Geo := {((0 : ℤ), (0 : ℤ)), ((10 : ℤ), (10 : ℤ))}

/-- Validator for the determinism counterexample. -/
def stC8 : ValidatorState := ⟨some [geoC8], []⟩

/-- Configuration asking for a single point. -/
def cfgC8 : GeneratorConfig := { min_distance := 1, target_points := some 1 }

/-- A seeded global stream: the first two draws land on (0,0), every
later draw lands on (10,10). -/
def rngC8 : ℕ → ℕ := fun j => if j < 2 then 0 else 10

/-- Validator holding the single cell (3,3). -/
def st9 : ValidatorState := ⟨some [({((3 : ℤ), (3 : ℤ))} : Geo)], []⟩

/-- Configuration asking for five points (more than the area can hold). -/
def cfg9 : GeneratorConfig := { min_distance := 1, target_points := some 5 }

/-- One-polygon search area holding the single cell (1,1). -/
def area10 : GDF := [({((1 : ℤ), (1 : ℤ))} : Geo)]

deriving instance DecidableEq for Except

theorem unionGDF_nil : unionGDF [] = ∅ := rfl

theorem unionGDF_cons (a : Geo) (A : GDF) : unionGDF (a :: A) = a ∪ unionGDF A := rfl

theorem mem_unionGDF {x : Cell} {A : GDF} : x ∈ unionGDF A ↔ ∃ g ∈ A, x ∈ g := by
  induction A with
  | nil => simp [unionGDF_nil]
  | cons a as ih =>
    simp only [unionGDF_cons, Finset.mem_union, ih, List.mem_cons]
    constructor
    · rintro (h | ⟨g, hg, hx⟩)
      · exact ⟨a, Or.inl rfl, h⟩
      · exact ⟨g, Or.inr hg, hx⟩
    · rintro ⟨g, (rfl | hg), hx⟩
      · exact Or.inl hx
      · exact Or.inr ⟨g, hg, hx⟩

theorem mem_explode_list {g : Geo} {A : GDF} : g ∈ explode A ↔ g ∈ A ∧ g ≠ ∅ := by
  simp [explode, List.mem_filter]

theorem unionGDF_explode {x : Cell} {A : GDF} : x ∈ unionGDF (explode A) ↔ x ∈ unionGDF A := by
  simp only [mem_unionGDF, mem_explode_list]
  constructor
  · rintro ⟨g, ⟨hg, _⟩, hx⟩; exact ⟨g, hg, hx⟩
  · rintro ⟨g, hg, hx⟩
    exact ⟨g, ⟨hg, Finset.ne_empty_of_mem hx⟩, hx⟩

theorem mem_overlayDifference {x : Cell} {A B : GDF} :
    x ∈ unionGDF (overlayDifference A B) ↔ x ∈ unionGDF A ∧ x ∉ unionGDF B := by
  simp only [overlayDifference, mem_unionGDF, List.mem_filter, List.mem_map,
    decide_eq_true_eq]
  constructor
  · rintro ⟨g, ⟨⟨a, ha, rfl⟩, -⟩, hx⟩
    rcases Finset.mem_sdiff.mp hx with ⟨hxa, hxb⟩
    exact ⟨⟨a, ha, hxa⟩, fun hE => hxb (mem_unionGDF.mpr hE)⟩
  · rintro ⟨⟨a, ha, hxa⟩, hxb⟩
    have hxb2 : x ∉ unionGDF B := fun hB => hxb (mem_unionGDF.mp hB)
    refine ⟨a \ unionGDF B, ⟨⟨a, ha, rfl⟩, ?_⟩, Finset.mem_sdiff.mpr ⟨hxa, hxb2⟩⟩
    exact Finset.ne_empty_of_mem (Finset.mem_sdiff.mpr ⟨hxa, hxb2⟩)

theorem mem_overlayIntersection {x : Cell} {A B : GDF} :
    x ∈ unionGDF (overlayIntersection A B) ↔ x ∈ unionGDF A ∧ x ∈ unionGDF B := by
  simp only [overlayIntersection, mem_unionGDF, List.mem_filter, List.mem_flatMap,
    List.mem_map, decide_eq_true_eq]
  constructor
  · rintro ⟨g, ⟨⟨a, ha, b, hb, rfl⟩, -⟩, hx⟩
    rcases Finset.mem_inter.mp hx with ⟨hxa, hxb⟩
    exact ⟨⟨a, ha, hxa⟩, ⟨b, hb, hxb⟩⟩
  · rintro ⟨⟨a, ha, hxa⟩, ⟨b, hb, hxb⟩⟩
    refine ⟨a ∩ b, ⟨⟨a, ha, b, hb, rfl⟩, ?_⟩, Finset.mem_inter.mpr ⟨hxa, hxb⟩⟩
    exact Finset.ne_empty_of_mem (Finset.mem_inter.mpr ⟨hxa, hxb⟩)

theorem dist2_comm (p q : Cell) : dist2 p q = dist2 q p := by
  simp only [dist2]; ring

theorem dist2_nonneg (p q : Cell) : 0 ≤ dist2 p q := by
  have h1 := sq_nonneg (p.1 - q.1)
  have h2 := sq_nonneg (p.2 - q.2)
  simp only [dist2]; nlinarith

theorem mem_bufferDisk_self {p : Cell} {r : ℚ} (hr : 0 ≤ r) : p ∈ bufferDisk p r := by
  have hc : (0 : ℤ) ≤ ⌈r⌉ := Int.ceil_nonneg hr
  refine Finset.mem_filter.mpr ⟨Finset.mem_product.mpr ⟨?_, ?_⟩, ?_⟩
  · exact Finset.mem_Icc.mpr ⟨by omega, by omega⟩
  · exact Finset.mem_Icc.mpr ⟨by omega, by omega⟩
  · have : dist2 p p = 0 := by simp [dist2]
    rw [this]
    push_cast
    positivity

theorem not_mem_bufferDisk {q p : Cell} {r : ℚ} (hr : 0 ≤ r)
    (h : q ∉ bufferDisk p r) : r ^ 2 < ((dist2 q p : ℤ) : ℚ) := by
  by_contra hcon
  push_neg at hcon
  apply h
  have hx2 : ((q.1 - p.1 : ℤ) : ℚ) ^ 2 ≤ r ^ 2 := by
    have hy := sq_nonneg ((q.2 - p.2 : ℤ) : ℚ)
    have : ((dist2 q p : ℤ) : ℚ) = ((q.1 - p.1 : ℤ) : ℚ) ^ 2 + ((q.2 - p.2 : ℤ) : ℚ) ^ 2 := by
      simp only [dist2]; push_cast; ring
    nlinarith [hcon, hy]
  have hy2 : ((q.2 - p.2 : ℤ) : ℚ) ^ 2 ≤ r ^ 2 := by
    have hx := sq_nonneg ((q.1 - p.1 : ℤ) : ℚ)
    have : ((dist2 q p : ℤ) : ℚ) = ((q.1 - p.1 : ℤ) : ℚ) ^ 2 + ((q.2 - p.2 : ℤ) : ℚ) ^ 2 := by
      simp only [dist2]; push_cast; ring
    nlinarith [hcon, hx]
  have hxu : (q.1 - p.1 : ℤ) ≤ ⌈r⌉ := by
    have h1 : ((q.1 - p.1 : ℤ) : ℚ) ≤ r := by nlinarith [hx2, hr]
    have h2 : ((q.1 - p.1 : ℤ) : ℚ) ≤ (⌈r⌉ : ℚ) := le_trans h1 (Int.le_ceil r)
    exact_mod_cast h2
  have hxl : -(⌈r⌉ : ℤ) ≤ q.1 - p.1 := by
    have h1 : -r ≤ ((q.1 - p.1 : ℤ) : ℚ) := by nlinarith [hx2, hr]
    have h2 : -(⌈r⌉ : ℚ) ≤ ((q.1 - p.1 : ℤ) : ℚ) := le_trans (by linarith [Int.le_ceil r]) h1
    exact_mod_cast h2
  have hyu : (q.2 - p.2 : ℤ) ≤ ⌈r⌉ := by
    have h1 : ((q.2 - p.2 : ℤ) : ℚ) ≤ r := by nlinarith [hy2, hr]
    have h2 : ((q.2 - p.2 : ℤ) : ℚ) ≤ (⌈r⌉ : ℚ) := le_trans h1 (Int.le_ceil r)
    exact_mod_cast h2
  have hyl : -(⌈r⌉ : ℤ) ≤ q.2 - p.2 := by
    have h1 : -r ≤ ((q.2 - p.2 : ℤ) : ℚ) := by nlinarith [hy2, hr]
    have h2 : -(⌈r⌉ : ℚ) ≤ ((q.2 - p.2 : ℤ) : ℚ) := le_trans (by linarith [Int.le_ceil r]) h1
    exact_mod_cast h2
  refine Finset.mem_filter.mpr ⟨Finset.mem_product.mpr ⟨?_, ?_⟩, hcon⟩
  · exact Finset.mem_Icc.mpr ⟨by omega, by omega⟩
  · exact Finset.mem_Icc.mpr ⟨by omega, by omega⟩

theorem ne_nil_of_mem_unionGDF {x : Cell} {A : GDF} (h : x ∈ unionGDF A) : A ≠ [] := by
  intro hA; subst hA; simp [unionGDF_nil] at h

theorem mem_unionGDF_flatten {x : Cell} {Ls : List GDF} :
    x ∈ unionGDF Ls.flatten ↔ ∃ l ∈ Ls, x ∈ unionGDF l := by
  simp only [mem_unionGDF, List.mem_flatten]
  constructor
  · rintro ⟨g, ⟨l, hl, hg⟩, hx⟩
    exact ⟨l, hl, g, hg, hx⟩
  · rintro ⟨l, hl, g, hg, hx⟩
    exact ⟨g, ⟨l, hl, hg⟩, hx⟩

theorem layerLoop_subset :
    ∀ (ps : List GDF) (rem : GDF),
      (∀ g ∈ (layerLoop rem ps).1, ∀ x ∈ unionGDF g, x ∈ unionGDF rem) ∧
      (∀ x ∈ unionGDF (layerLoop rem ps).2, x ∈ unionGDF rem) := by
  intro ps
  induction ps with
  | nil => intro rem; exact ⟨by simp [layerLoop], by simp [layerLoop]⟩
  | cons p ps ih =>
    intro rem
    obtain ⟨ih1, ih2⟩ := ih (overlayDifference rem p)
    constructor
    · intro g hg x hx
      rcases List.mem_append.mp hg with hg1 | hg2
      · have hgi : g = overlayIntersection rem p := by
          by_cases hemp : overlayIntersection rem p = []
          · simp [layerLoop, hemp] at hg1
          · simp [layerLoop, hemp] at hg1; exact hg1
        subst hgi
        exact (mem_overlayIntersection.mp hx).1
      · have := ih1 g hg2 x hx
        exact (mem_overlayDifference.mp this).1
    · intro x hx
      have := ih2 x hx
      exact (mem_overlayDifference.mp this).1

theorem layerLoop_not_both_empty :
    ∀ (ps : List GDF) (rem : GDF), (unionGDF rem).Nonempty →
      ¬((layerLoop rem ps).1 = [] ∧ (layerLoop rem ps).2 = []) := by
  intro ps
  induction ps with
  | nil =>
    rintro rem ⟨x, hx⟩ ⟨-, h2⟩
    exact ne_nil_of_mem_unionGDF hx (by simpa [layerLoop] using h2)
  | cons p ps ih =>
    rintro rem ⟨x, hx⟩ ⟨h1, h2⟩
    by_cases hne : (unionGDF (overlayDifference rem p)).Nonempty
    · refine ih (overlayDifference rem p) hne ⟨?_, ?_⟩
      · rcases List.append_eq_nil.mp h1 with ⟨-, hr⟩
        exact hr
      · simpa [layerLoop] using h2
    · have hxin : x ∈ unionGDF p := by
        by_contra hxp
        exact hne ⟨x, mem_overlayDifference.mpr ⟨hx, hxp⟩⟩
      have hxi : x ∈ unionGDF (overlayIntersection rem p) :=
        mem_overlayIntersection.mpr ⟨hx, hxin⟩
      have hint : overlayIntersection rem p ≠ [] := ne_nil_of_mem_unionGDF hxi
      have : (layerLoop rem (p :: ps)).1 =
          overlayIntersection rem p :: (layerLoop (overlayDifference rem p) ps).1 := by
        simp [layerLoop, hint]
      rw [this] at h1
      exact List.cons_ne_nil _ _ h1

theorem update_valid_area_some {st : ValidatorState} {va : GDF} (ex : GDF)
    (h : st.valid_area = some va) :
    (update_valid_area st ex).valid_area = some (explode (overlayDifference va ex)) := by
  simp [update_valid_area, h]

theorem get_valid_area_ok_state {st st1 : ValidatorState} {area : GDF}
    (h : get_valid_area st = Except.ok (st1, area)) :
    st1.valid_area = st.valid_area ∧
      st1 = { st with prefer_areas := sortPrefs st.prefer_areas } := by
  obtain ⟨ova, oprefs⟩ := st
  cases ova with
  | none => exact Except.noConfusion h
  | some va =>
    simp only [get_valid_area] at h
    by_cases hp : sortPrefs oprefs = []
    · rw [if_pos hp] at h
      obtain ⟨h1, h2⟩ := Prod.mk.inj (Except.ok.inj h)
      exact ⟨by rw [← h1], h1.symm⟩
    · rw [if_neg hp] at h
      by_cases hcc : (layerLoop va ((sortPrefs oprefs).map Prod.snd)).1 ++
          (if (layerLoop va ((sortPrefs oprefs).map Prod.snd)).2 = [] then []
            else [(layerLoop va ((sortPrefs oprefs).map Prod.snd)).2]) = []
      · rw [if_pos hcc] at h; exact Except.noConfusion h
      · rw [if_neg hcc] at h
        obtain ⟨h1, h2⟩ := Prod.mk.inj (Except.ok.inj h)
        exact ⟨by rw [← h1], h1.symm⟩

theorem get_valid_area_ok_subset {st st1 : ValidatorState} {area va : GDF}
    (h : get_valid_area st = Except.ok (st1, area)) (hva : st.valid_area = some va) :
    ∀ x ∈ unionGDF area, x ∈ unionGDF va := by
  obtain ⟨ova, oprefs⟩ := st
  simp only at hva
  subst hva
  simp only [get_valid_area] at h
  by_cases hp : sortPrefs oprefs = []
  · rw [if_pos hp] at h
    obtain ⟨h1, h2⟩ := Prod.mk.inj (Except.ok.inj h)
    intro x hx
    rw [← h2] at hx
    exact unionGDF_explode.mp hx
  · rw [if_neg hp] at h
    by_cases hcc : (layerLoop va ((sortPrefs oprefs).map Prod.snd)).1 ++
        (if (layerLoop va ((sortPrefs oprefs).map Prod.snd)).2 = [] then []
          else [(layerLoop va ((sortPrefs oprefs).map Prod.snd)).2]) = []
    · rw [if_pos hcc] at h; exact Except.noConfusion h
    · rw [if_neg hcc] at h
      obtain ⟨h1, h2⟩ := Prod.mk.inj (Except.ok.inj h)
      intro x hx
      rw [← h2] at hx
      have hx2 := unionGDF_explode.mp hx
      rcases mem_unionGDF_flatten.mp hx2 with ⟨l, hl, hxl⟩
      obtain ⟨hsub1, hsub2⟩ := layerLoop_subset ((sortPrefs oprefs).map Prod.snd) va
      rcases List.mem_append.mp hl with hl1 | hl2
      · exact hsub1 l hl1 x hxl
      · by_cases hrem : (layerLoop va ((sortPrefs oprefs).map Prod.snd)).2 = []
        · simp [hrem] at hl2
        · simp only [if_neg hrem, List.mem_singleton] at hl2
          subst hl2
          exact hsub2 x hxl

theorem get_valid_area_error_empty {st : ValidatorState} {va : GDF} {e : PyErr}
    (h : get_valid_area st = Except.error e) (hva : st.valid_area = some va) :
    unionGDF va = ∅ := by
  obtain ⟨ova, oprefs⟩ := st
  simp only at hva
  subst hva
  simp only [get_valid_area] at h
  by_cases hp : sortPrefs oprefs = []
  · rw [if_pos hp] at h; exact Except.noConfusion h
  · rw [if_neg hp] at h
    by_cases hcc : (layerLoop va ((sortPrefs oprefs).map Prod.snd)).1 ++
        (if (layerLoop va ((sortPrefs oprefs).map Prod.snd)).2 = [] then []
          else [(layerLoop va ((sortPrefs oprefs).map Prod.snd)).2]) = []
    · rcases List.append_eq_nil.mp hcc with ⟨h1, h2⟩
      have hrem : (layerLoop va ((sortPrefs oprefs).map Prod.snd)).2 = [] := by
        by_cases hr : (layerLoop va ((sortPrefs oprefs).map Prod.snd)).2 = []
        · exact hr
        · simp [hr] at h2
      by_contra hne
      exact layerLoop_not_both_empty ((sortPrefs oprefs).map Prod.snd) va
        (Finset.nonempty_iff_ne_empty.mpr hne) ⟨h1, hrem⟩
    · rw [if_neg hcc] at h; exact Except.noConfusion h

theorem rejectionLoop_mem {g : Geo} {rng : ℕ → ℕ} {p : Cell} {k2 : ℕ} :
    ∀ {fuel k : ℕ}, rejectionLoop g rng fuel k = some (p, k2) → p ∈ g := by
  intro fuel
  induction fuel with
  | zero => intro k h; simp [rejectionLoop] at h
  | succ n ih =>
    intro k h
    rw [rejectionLoop] at h
    split at h
    · rename_i hmem
      obtain ⟨h1, h2⟩ := Prod.mk.inj (Option.some.inj h)
      subst h1
      exact hmem
    · exact ih h

theorem rejectionLoop_mono {g : Geo} {rng : ℕ → ℕ} {p : Cell} {k2 : ℕ} :
    ∀ {fuel k : ℕ}, rejectionLoop g rng fuel k = some (p, k2) → k ≤ k2 := by
  intro fuel
  induction fuel with
  | zero => intro k h; simp [rejectionLoop] at h
  | succ n ih =>
    intro k h
    rw [rejectionLoop] at h
    split at h
    · obtain ⟨h1, h2⟩ := Prod.mk.inj (Option.some.inj h)
      omega
    · exact le_trans (by omega) (ih h)

theorem rejectionLoop_agree {g : Geo} {rng1 rng2 : ℕ → ℕ} :
    ∀ {fuel k : ℕ}, (∀ j, k ≤ j → rng1 j = rng2 j) →
      rejectionLoop g rng1 fuel k = rejectionLoop g rng2 fuel k := by
  intro fuel
  induction fuel with
  | zero => intro k _; rfl
  | succ n ih =>
    intro k hag
    rw [rejectionLoop, rejectionLoop]
    rw [hag k (le_refl k), hag (k + 1) (by omega)]
    split
    · rfl
    · exact ih (fun j hj => hag j (by omega))

theorem get_random_point_mem {area : GDF} {rng : ℕ → ℕ} {k fuel : ℕ} {p : Cell} {k2 : ℕ}
    (h : get_random_point area rng k fuel = some (some (p, k2))) : p ∈ unionGDF area := by
  cases hE : explode area with
  | nil => simp [get_random_point, hE] at h
  | cons g rest =>
    simp only [get_random_point, hE] at h
    cases hR : rejectionLoop g rng fuel k with
    | none => simp only [hR] at h; exact Option.noConfusion h
    | some r =>
      simp only [hR] at h
      obtain ⟨h1, h2⟩ := Prod.mk.inj (Option.some.inj (Option.some.inj h))
      have hpg : p ∈ g := by
        subst h1
        exact rejectionLoop_mem (by rw [hR])
      have hgmem : g ∈ explode area := by rw [hE]; exact List.mem_cons_self g rest
      exact mem_unionGDF.mpr ⟨g, (mem_explode_list.mp hgmem).1, hpg⟩

theorem get_random_point_mono {area : GDF} {rng : ℕ → ℕ} {k fuel : ℕ} {p : Cell} {k2 : ℕ}
    (h : get_random_point area rng k fuel = some (some (p, k2))) : k ≤ k2 := by
  cases hE : explode area with
  | nil => simp [get_random_point, hE] at h
  | cons g rest =>
    simp only [get_random_point, hE] at h
    cases hR : rejectionLoop g rng fuel k with
    | none => simp only [hR] at h; exact Option.noConfusion h
    | some r =>
      simp only [hR] at h
      have h2 : r = (p, k2) := Option.some.inj (Option.some.inj h)
      subst h2
      exact rejectionLoop_mono hR

theorem get_random_point_agree {area : GDF} {rng1 rng2 : ℕ → ℕ} {k fuel : ℕ}
    (hag : ∀ j, k ≤ j → rng1 j = rng2 j) :
    get_random_point area rng1 k fuel = get_random_point area rng2 k fuel := by
  cases hE : explode area with
  | nil => simp only [get_random_point, hE]
  | cons g rest =>
    simp only [get_random_point, hE]
    rw [rejectionLoop_agree hag]

theorem cappedScan_mem {rng : ℕ → ℕ} {cap : ℕ} {p : Cell} {k2 : ℕ} :
    ∀ {polys : List Geo} {k : ℕ}, cappedScan rng cap polys k = some (p, k2) →
      ∃ g ∈ polys, p ∈ g := by
  intro polys
  induction polys with
  | nil => intro k h; simp [cappedScan] at h
  | cons g rest ih =>
    intro k h
    rw [cappedScan] at h
    cases hR : rejectionLoop g rng cap k with
    | none =>
      simp only [hR] at h
      obtain ⟨g2, hg2, hpg2⟩ := ih h
      exact ⟨g2, List.mem_cons_of_mem g hg2, hpg2⟩
    | some r =>
      simp only [hR] at h
      have h1 : r = (p, k2) := Option.some.inj h
      have hpg : p ∈ g := by
        subst h1
        exact rejectionLoop_mem hR
      exact ⟨g, List.mem_cons_self g rest, hpg⟩

theorem get_random_point_capped_mem {area : GDF} {rng : ℕ → ℕ} {k cap : ℕ} {p : Cell} {k2 : ℕ}
    (h : get_random_point_capped area rng k cap = some (p, k2)) : p ∈ unionGDF area := by
  obtain ⟨g, hg, hpg⟩ := cappedScan_mem h
  exact mem_unionGDF.mpr ⟨g, (mem_explode_list.mp hg).1, hpg⟩

theorem unionGDF_singleton (g : Geo) : unionGDF [g] = g := by
  simp [unionGDF]

theorem genLoop_points {cfg : GeneratorConfig} {sample : GDF → ℕ → Option (Option (Cell × ℕ))}
    (Hmem : ∀ a k p k2, sample a k = some (some (p, k2)) → p ∈ unionGDF a) :
    ∀ {fuel : ℕ} {area : GDF} {st : ValidatorState} {k : ℕ} {acc : List Cell} {out : GenOut}
      {va : GDF},
      genLoop cfg sample fuel area st k acc = some out →
      st.valid_area = some va →
      (∀ x ∈ unionGDF area, x ∈ unionGDF va) →
      ∀ p ∈ out.points, p ∈ acc ∨ p ∈ unionGDF va := by
  intro fuel
  induction fuel with
  | zero =>
    intro area st k acc out va h _ _
    simp [genLoop] at h
  | succ n ih =>
    intro area st k acc out va h hva hsub
    rw [genLoop] at h
    split at h
    · have hout := Option.some.inj h
      subst hout
      exact fun p hp => Or.inl hp
    · split at h
      · have hout := Option.some.inj h
        subst hout
        exact fun p hp => Or.inl hp
      · cases hs : sample area k with
        | none => simp only [hs] at h; exact Option.noConfusion h
        | some o =>
          cases o with
          | none =>
            simp only [hs] at h
            have hout := Option.some.inj h
            subst hout
            exact fun p hp => Or.inl hp
          | some pr =>
            obtain ⟨p, k2⟩ := pr
            simp only [hs] at h
            have hp : p ∈ unionGDF va := hsub p (Hmem area k p k2 hs)
            cases hgv : get_valid_area (update_valid_area st (create_circle p cfg.min_distance)) with
            | error e =>
              simp only [hgv] at h
              have hout := Option.some.inj h
              subst hout
              intro q hq
              rcases List.mem_append.mp hq with hq1 | hq2
              · exact Or.inl hq1
              · rw [List.mem_singleton] at hq2
                subst hq2
                exact Or.inr hp
            | ok pr2 =>
              obtain ⟨st3, area2⟩ := pr2
              simp only [hgv] at h
              have hup := update_valid_area_some (create_circle p cfg.min_distance) hva
              have hst3 : st3.valid_area =
                  some (explode (overlayDifference va (create_circle p cfg.min_distance))) := by
                rw [(get_valid_area_ok_state hgv).1, hup]
              have hsub2 : ∀ x ∈ unionGDF area2,
                  x ∈ unionGDF (explode (overlayDifference va (create_circle p cfg.min_distance))) :=
                get_valid_area_ok_subset hgv hup
              intro q hq
              rcases ih h hst3 hsub2 q hq with hq1 | hq2
              · rcases List.mem_append.mp hq1 with hq3 | hq4
                · exact Or.inl hq3
                · rw [List.mem_singleton] at hq4
                  subst hq4
                  exact Or.inr hp
              · have := unionGDF_explode.mp hq2
                exact Or.inr (mem_overlayDifference.mp this).1

theorem genLoop_acc_extends {cfg : GeneratorConfig}
    {sample : GDF → ℕ → Option (Option (Cell × ℕ))} :
    ∀ {fuel : ℕ} {area : GDF} {st : ValidatorState} {k : ℕ} {acc : List Cell} {out : GenOut},
      genLoop cfg sample fuel area st k acc = some out →
      ∃ tail, out.points = acc ++ tail := by
  intro fuel
  induction fuel with
  | zero => intro area st k acc out h; simp [genLoop] at h
  | succ n ih =>
    intro area st k acc out h
    rw [genLoop] at h
    split at h
    · have hout := Option.some.inj h
      subst hout
      exact ⟨[], by simp⟩
    · split at h
      · have hout := Option.some.inj h
        subst hout
        exact ⟨[], by simp⟩
      · cases hs : sample area k with
        | none => simp only [hs] at h; exact Option.noConfusion h
        | some o =>
          cases o with
          | none =>
            simp only [hs] at h
            have hout := Option.some.inj h
            subst hout
            exact ⟨[], by simp⟩
          | some pr =>
            obtain ⟨p, k2⟩ := pr
            simp only [hs] at h
            cases hgv : get_valid_area (update_valid_area st (create_circle p cfg.min_distance)) with
            | error e =>
              simp only [hgv] at h
              have hout := Option.some.inj h
              subst hout
              exact ⟨[p], rfl⟩
            | ok pr2 =>
              obtain ⟨st3, area2⟩ := pr2
              simp only [hgv] at h
              obtain ⟨tail, htail⟩ := ih h
              exact ⟨p :: tail, by rw [htail]; simp⟩

theorem genLoop_error_caught_empty {cfg : GeneratorConfig}
    {sample : GDF → ℕ → Option (Option (Cell × ℕ))} :
    ∀ {fuel : ℕ} {area : GDF} {st : ValidatorState} {k : ℕ} {acc : List Cell} {out : GenOut}
      {va2 : GDF},
      genLoop cfg sample fuel area st k acc = some out →
      out.reason = StopReason.errorCaught →
      out.st.valid_area = some va2 →
      unionGDF va2 = ∅ := by
  intro fuel
  induction fuel with
  | zero => intro area st k acc out va2 h _ _; simp [genLoop] at h
  | succ n ih =>
    intro area st k acc out va2 h hr hva2
    rw [genLoop] at h
    split at h
    · have hout := Option.some.inj h
      subst hout
      exact absurd hr (by simp)
    · split at h
      · have hout := Option.some.inj h
        subst hout
        exact absurd hr (by simp)
      · cases hs : sample area k with
        | none => simp only [hs] at h; exact Option.noConfusion h
        | some o =>
          cases o with
          | none =>
            simp only [hs] at h
            have hout := Option.some.inj h
            subst hout
            exact absurd hr (by simp)
          | some pr =>
            obtain ⟨p, k2⟩ := pr
            simp only [hs] at h
            cases hgv : get_valid_area (update_valid_area st (create_circle p cfg.min_distance)) with
            | error e =>
              simp only [hgv] at h
              have hout := Option.some.inj h
              subst hout
              exact get_valid_area_error_empty hgv hva2
            | ok pr2 =>
              obtain ⟨st3, area2⟩ := pr2
              simp only [hgv] at h
              exact ih h hr hva2

theorem genLoop_sep {cfg : GeneratorConfig} {sample : GDF → ℕ → Option (Option (Cell × ℕ))}
    (Hmem : ∀ a k p k2, sample a k = some (some (p, k2)) → p ∈ unionGDF a)
    (hd : 0 ≤ cfg.min_distance) :
    ∀ {fuel : ℕ} {area : GDF} {st : ValidatorState} {k : ℕ} {acc : List Cell} {out : GenOut}
      {va : GDF},
      genLoop cfg sample fuel area st k acc = some out →
      st.valid_area = some va →
      List.Pairwise (fun p q => cfg.min_distance ^ 2 ≤ ((dist2 p q : ℤ) : ℚ)) acc →
      (∀ q ∈ acc, ∀ x ∈ unionGDF area, cfg.min_distance ^ 2 < ((dist2 x q : ℤ) : ℚ)) →
      (∀ q ∈ acc, ∀ x ∈ unionGDF va, cfg.min_distance ^ 2 < ((dist2 x q : ℤ) : ℚ)) →
      List.Pairwise (fun p q => cfg.min_distance ^ 2 ≤ ((dist2 p q : ℤ) : ℚ)) out.points := by
  intro fuel
  induction fuel with
  | zero =>
    intro area st k acc out va h _ _ _ _
    simp [genLoop] at h
  | succ n ih =>
    intro area st k acc out va h hva hP hI2 hI3
    rw [genLoop] at h
    split at h
    · have hout := Option.some.inj h
      subst hout
      exact hP
    · split at h
      · have hout := Option.some.inj h
        subst hout
        exact hP
      · cases hs : sample area k with
        | none => simp only [hs] at h; exact Option.noConfusion h
        | some o =>
          cases o with
          | none =>
            simp only [hs] at h
            have hout := Option.some.inj h
            subst hout
            exact hP
          | some pr =>
            obtain ⟨p, k2⟩ := pr
            simp only [hs] at h
            have hparea : p ∈ unionGDF area := Hmem area k p k2 hs
            have hPnew : List.Pairwise
                (fun p q => cfg.min_distance ^ 2 ≤ ((dist2 p q : ℤ) : ℚ)) (acc ++ [p]) := by
              rw [List.pairwise_append]
              refine ⟨hP, List.pairwise_singleton _ _, ?_⟩
              intro a ha b hb
              rw [List.mem_singleton] at hb
              rw [hb]
              have := hI2 a ha p hparea
              rw [dist2_comm] at this
              exact le_of_lt this
            cases hgv : get_valid_area (update_valid_area st (create_circle p cfg.min_distance)) with
            | error e =>
              simp only [hgv] at h
              have hout := Option.some.inj h
              subst hout
              exact hPnew
            | ok pr2 =>
              obtain ⟨st3, area2⟩ := pr2
              simp only [hgv] at h
              have hup := update_valid_area_some (create_circle p cfg.min_distance) hva
              have hst3 : st3.valid_area =
                  some (explode (overlayDifference va (create_circle p cfg.min_distance))) := by
                rw [(get_valid_area_ok_state hgv).1, hup]
              have hI3new : ∀ q ∈ acc ++ [p],
                  ∀ x ∈ unionGDF (explode (overlayDifference va (create_circle p cfg.min_distance))),
                    cfg.min_distance ^ 2 < ((dist2 x q : ℤ) : ℚ) := by
                intro q hq x hx
                have hx2 := mem_overlayDifference.mp (unionGDF_explode.mp hx)
                rcases List.mem_append.mp hq with hq1 | hq2
                · exact hI3 q hq1 x hx2.1
                · rw [List.mem_singleton] at hq2
                  subst hq2
                  have hxnot : x ∉ bufferDisk q cfg.min_distance := by
                    intro hxin
                    exact hx2.2 (by rw [create_circle, unionGDF_singleton]; exact hxin)
                  exact not_mem_bufferDisk hd hxnot
              have hI2new : ∀ q ∈ acc ++ [p], ∀ x ∈ unionGDF area2,
                  cfg.min_distance ^ 2 < ((dist2 x q : ℤ) : ℚ) := by
                intro q hq x hx
                exact hI3new q hq x (get_valid_area_ok_subset hgv hup x hx)
              exact ih h hst3 hPnew hI2new hI3new

theorem genLoop_faith_agree {cfg : GeneratorConfig} {rng1 rng2 : ℕ → ℕ} {m : ℕ} :
    ∀ {fuel : ℕ} {area : GDF} {st : ValidatorState} {k : ℕ} {acc : List Cell},
      (∀ j, k ≤ j → rng1 j = rng2 j) →
      genLoop cfg (fun a j => get_random_point a rng1 j m) fuel area st k acc =
        genLoop cfg (fun a j => get_random_point a rng2 j m) fuel area st k acc := by
  intro fuel
  induction fuel with
  | zero => intro area st k acc _; rfl
  | succ n ih =>
    intro area st k acc hag
    rw [genLoop, genLoop]
    by_cases hA : area.isEmpty
    · rw [if_pos hA, if_pos hA]
    · rw [if_neg hA, if_neg hA]
      by_cases hT : targetHit cfg acc.length
      · rw [if_pos hT, if_pos hT]
      · rw [if_neg hT, if_neg hT]
        have hsame : get_random_point area rng1 k m = get_random_point area rng2 k m :=
          get_random_point_agree hag
        cases hs : get_random_point area rng2 k m with
        | none => simp only [hsame, hs]
        | some o =>
          cases o with
          | none => simp only [hsame, hs]
          | some pr =>
            obtain ⟨p, k2⟩ := pr
            have hk2 : k ≤ k2 := get_random_point_mono (hsame.trans hs)
            simp only [hsame, hs]
            cases hgv : get_valid_area (update_valid_area st (create_circle p cfg.min_distance)) with
            | error e => simp only [hgv]
            | ok pr2 =>
              obtain ⟨st3, area2⟩ := pr2
              simp only [hgv]
              exact ih (fun j hj => hag j (le_trans hk2 hj))

theorem genLoop_total {cfg : GeneratorConfig} {rng : ℕ → ℕ}
    (hd : 0 ≤ cfg.min_distance) :
    ∀ (fuel : ℕ) {area : GDF} {st : ValidatorState} {k : ℕ} {acc : List Cell} {va : GDF},
      st.valid_area = some va →
      (∀ x ∈ unionGDF area, x ∈ unionGDF va) →
      (unionGDF va).card < fuel →
      ∃ out, genLoop cfg (fun a j => some (get_random_point_capped a rng j cfg.max_attempts))
        fuel area st k acc = some out := by
  intro fuel
  induction fuel with
  | zero =>
    intro area st k acc va _ _ hcard
    omega
  | succ n ih =>
    intro area st k acc va hva hsub hcard
    rw [genLoop]
    by_cases hA : area.isEmpty
    · rw [if_pos hA]
      exact ⟨_, rfl⟩
    · rw [if_neg hA]
      by_cases hT : targetHit cfg acc.length
      · rw [if_pos hT]
        exact ⟨_, rfl⟩
      · rw [if_neg hT]
        cases hs : get_random_point_capped area rng k cfg.max_attempts with
        | none =>
          simp only [hs]
          exact ⟨_, rfl⟩
        | some pr =>
          obtain ⟨p, k2⟩ := pr
          simp only [hs]
          have hpva : p ∈ unionGDF va := hsub p (get_random_point_capped_mem hs)
          cases hgv : get_valid_area (update_valid_area st (create_circle p cfg.min_distance)) with
          | error e =>
            simp only [hgv]
            exact ⟨_, rfl⟩
          | ok pr2 =>
            obtain ⟨st3, area2⟩ := pr2
            simp only [hgv]
            have hup := update_valid_area_some (create_circle p cfg.min_distance) hva
            have hst3 : st3.valid_area =
                some (explode (overlayDifference va (create_circle p cfg.min_distance))) := by
              rw [(get_valid_area_ok_state hgv).1, hup]
            have hsub2 : ∀ x ∈ unionGDF area2,
                x ∈ unionGDF (explode (overlayDifference va (create_circle p cfg.min_distance))) :=
              get_valid_area_ok_subset hgv hup
            have hsubU : unionGDF (explode (overlayDifference va (create_circle p cfg.min_distance)))
                ⊆ unionGDF va := by
              intro x hx
              exact (mem_overlayDifference.mp (unionGDF_explode.mp hx)).1
            have hpnot : p ∉
                unionGDF (explode (overlayDifference va (create_circle p cfg.min_distance))) := by
              intro hpin
              have := (mem_overlayDifference.mp (unionGDF_explode.mp hpin)).2
              apply this
              rw [create_circle, unionGDF_singleton]
              exact mem_bufferDisk_self hd
            have hlt : (unionGDF (explode (overlayDifference va
                (create_circle p cfg.min_distance)))).card < (unionGDF va).card :=
              Finset.card_lt_card ((Finset.ssubset_iff_of_subset hsubU).mpr ⟨p, hpva, hpnot⟩)
            exact ih hst3 hsub2 (by omega)

theorem add_constraint_some_sub {st : ValidatorState} {va : GDF} (c : SpatialConstraint)
    (h : st.valid_area = some va) :
    ∃ va2, (add_constraint st c).1.valid_area = some va2 ∧
      ∀ x ∈ unionGDF va2, x ∈ unionGDF va := by
  cases hc : c.ctype with
  | MUST_WITHIN =>
    refine ⟨overlayIntersection va c.geometry, ?_, ?_⟩
    · simp [add_constraint, hc, h]
    · intro x hx
      exact (mem_overlayIntersection.mp hx).1
  | MUST_OUTSIDE =>
    refine ⟨overlayDifference va c.geometry, ?_, ?_⟩
    · simp [add_constraint, hc, h]
    · intro x hx
      exact (mem_overlayDifference.mp hx).1
  | PREFER_WITHIN =>
    refine ⟨va, ?_, fun x hx => hx⟩
    simp [add_constraint, hc, h]

theorem foldConstraints_sub :
    ∀ (cs : List SpatialConstraint) (st : ValidatorState) {va : GDF},
      st.valid_area = some va →
      ∃ va2, (cs.foldl (fun s c => (add_constraint s c).1) st).valid_area = some va2 ∧
        ∀ x ∈ unionGDF va2, x ∈ unionGDF va := by
  intro cs
  induction cs with
  | nil => intro st va h; exact ⟨va, h, fun x hx => hx⟩
  | cons c cs ih =>
    intro st va h
    obtain ⟨va1, hva1, hsub1⟩ := add_constraint_some_sub c h
    obtain ⟨va2, hva2, hsub2⟩ := ih (add_constraint st c).1 hva1
    exact ⟨va2, by simpa [List.foldl_cons] using hva2, fun x hx => hsub1 x (hsub2 x hx)⟩

theorem foldConstraints_good :
    ∀ (cs : List SpatialConstraint) (st : ValidatorState) (seen : Bool),
      outsideAfterWithin seen cs = true →
      (seen = true → ∃ va0, st.valid_area = some va0) →
      ∀ {va2 : GDF}, (cs.foldl (fun s c => (add_constraint s c).1) st).valid_area = some va2 →
      ∀ x ∈ unionGDF va2,
        (∀ c ∈ cs, c.ctype = ConstraintType.MUST_WITHIN → x ∈ unionGDF c.geometry) ∧
        (∀ c ∈ cs, c.ctype = ConstraintType.MUST_OUTSIDE → x ∉ unionGDF c.geometry) := by
  intro cs
  induction cs with
  | nil =>
    intro st seen _ _ va2 _ x _
    exact ⟨fun c hc => absurd hc (List.not_mem_nil c), fun c hc => absurd hc (List.not_mem_nil c)⟩
  | cons c cs ih =>
    intro st seen hO hSome va2 hva2 x hx
    rw [outsideAfterWithin, Bool.and_eq_true] at hO
    obtain ⟨hO1, hO2⟩ := hO
    rw [List.foldl_cons] at hva2
    have hSome2 : (seen || decide (c.ctype = ConstraintType.MUST_WITHIN)) = true →
        ∃ va0, (add_constraint st c).1.valid_area = some va0 := by
      intro hseen2
      cases hc : c.ctype with
      | MUST_WITHIN =>
        cases hsv : st.valid_area with
        | none => exact ⟨c.geometry, by simp [add_constraint, hc, hsv]⟩
        | some va => exact ⟨overlayIntersection va c.geometry, by simp [add_constraint, hc, hsv]⟩
      | MUST_OUTSIDE =>
        have hseen : seen = true := by
          rw [hc] at hseen2
          simpa using hseen2
        obtain ⟨va0, hva0⟩ := hSome hseen
        exact ⟨overlayDifference va0 c.geometry, by simp [add_constraint, hc, hva0]⟩
      | PREFER_WITHIN =>
        have hseen : seen = true := by
          rw [hc] at hseen2
          simpa using hseen2
        obtain ⟨va0, hva0⟩ := hSome hseen
        exact ⟨va0, by simp [add_constraint, hc, hva0]⟩
    have hrest := ih (add_constraint st c).1
      (seen || decide (c.ctype = ConstraintType.MUST_WITHIN)) hO2 hSome2 hva2 x hx
    have hhead : (c.ctype = ConstraintType.MUST_WITHIN → x ∈ unionGDF c.geometry) ∧
        (c.ctype = ConstraintType.MUST_OUTSIDE → x ∉ unionGDF c.geometry) := by
      constructor
      · intro hc
        have hW : ∃ w, (add_constraint st c).1.valid_area = some w ∧
            ∀ y ∈ unionGDF w, y ∈ unionGDF c.geometry := by
          cases hsv : st.valid_area with
          | none =>
            exact ⟨c.geometry, by simp [add_constraint, hc, hsv], fun y hy => hy⟩
          | some va =>
            exact ⟨overlayIntersection va c.geometry, by simp [add_constraint, hc, hsv],
              fun y hy => (mem_overlayIntersection.mp hy).2⟩
        obtain ⟨w, hw, hwsub⟩ := hW
        obtain ⟨va3, hva3, hsub3⟩ := foldConstraints_sub cs (add_constraint st c).1 hw
        rw [hva3] at hva2
        have hx3 : x ∈ unionGDF w := hsub3 x (by rw [Option.some.inj hva2]; exact hx)
        exact hwsub x hx3
      · intro hc
        have hseen : seen = true := by
          rw [hc] at hO1
          simpa using hO1
        obtain ⟨va0, hva0⟩ := hSome hseen
        have hw : (add_constraint st c).1.valid_area =
            some (overlayDifference va0 c.geometry) := by
          simp [add_constraint, hc, hva0]
        obtain ⟨va3, hva3, hsub3⟩ := foldConstraints_sub cs (add_constraint st c).1 hw
        rw [hva3] at hva2
        have hx3 : x ∈ unionGDF (overlayDifference va0 c.geometry) :=
          hsub3 x (by rw [Option.some.inj hva2]; exact hx)
        exact (mem_overlayDifference.mp hx3).2
    constructor
    · intro c2 hc2 ht
      rcases List.mem_cons.mp hc2 with hh | htail
      · subst hh
        exact hhead.1 ht
      · exact hrest.1 c2 htail ht
    · intro c2 hc2 ht
      rcases List.mem_cons.mp hc2 with hh | htail
      · subst hh
        exact hhead.2 ht
      · exact hrest.2 c2 htail ht

theorem generate_ok_elim {cfg : GeneratorConfig} {st : ValidatorState} {rng : ℕ → ℕ}
    {k n m : ℕ} {out : GenOut}
    (h : generate cfg st rng k n m = some (Except.ok out)) :
    ∃ st1 area1, get_valid_area st = Except.ok (st1, area1) ∧
      genLoop cfg (fun a j => get_random_point a rng j m) n area1 st1 k [] = some out := by
  cases hgv : get_valid_area st with
  | error e =>
    simp only [generate, hgv] at h
    exact absurd (Option.some.inj h) (by simp)
  | ok pr =>
    obtain ⟨st1, area1⟩ := pr
    simp only [generate, hgv] at h
    cases hL : genLoop cfg (fun a j => get_random_point a rng j m) n area1 st1 k [] with
    | none => rw [hL] at h; exact Option.noConfusion h
    | some out2 =>
      rw [hL] at h
      simp only [Option.map_some'] at h
      have hoo : out2 = out := Except.ok.inj (Option.some.inj h)
      subst hoo
      exact ⟨st1, area1, rfl, hL⟩

theorem get_valid_area_ok_some {st st1 : ValidatorState} {area : GDF}
    (h : get_valid_area st = Except.ok (st1, area)) : ∃ va, st.valid_area = some va := by
  cases hsv : st.valid_area with
  | none => simp only [get_valid_area, hsv] at h; exact Except.noConfusion h
  | some va => exact ⟨va, rfl⟩

/-- C1: in every terminated run of `PointGenerator.generate`, any two
distinct accepted points `p` and `q` of the returned point list are at
least `config.min_distance` apart (stated in squared form:
`min_distance ^ 2 ≤ dist2 p q`, which for the required nonnegative
`min_distance` is exactly `distance p q >= min_distance`), because each
acceptance removes the disk `buffer(point, min_distance)` from the valid
area before the next point is sampled. -/
theorem c1_pairwise_separation (cfg : GeneratorConfig) (st : ValidatorState) (rng : ℕ → ℕ)
    (k n m : ℕ) (out : GenOut) (hd : 0 ≤ cfg.min_distance)
    (h : generate cfg st rng k n m = some (Except.ok out)) :
    ∀ p ∈ out.points, ∀ q ∈ out.points, p ≠ q →
      cfg.min_distance ^ 2 ≤ ((dist2 p q : ℤ) : ℚ) := by
  obtain ⟨st1, area1, hgv, hL⟩ := generate_ok_elim h
  obtain ⟨va, hva⟩ := get_valid_area_ok_some hgv
  have hst1 : st1.valid_area = some va := by
    rw [(get_valid_area_ok_state hgv).1, hva]
  have hsub : ∀ x ∈ unionGDF area1, x ∈ unionGDF va := get_valid_area_ok_subset hgv hva
  have hP := genLoop_sep (fun a j p k2 hs => get_random_point_mem hs) hd hL hst1
    List.Pairwise.nil
    (fun q hq => absurd hq (List.not_mem_nil q))
    (fun q hq => absurd hq (List.not_mem_nil q))
  have hsymm : Symmetric (fun p q : Cell => cfg.min_distance ^ 2 ≤ ((dist2 p q : ℤ) : ℚ)) := by
    intro a b hab
    rw [dist2_comm]
    exact hab
  exact fun p hp q hq hne => hP.forall hsymm hp hq hne

/-- C1 witness: in the concrete two-point run (area `{(0,0), (9,9)}`,
`min_distance = 1`) the two accepted points are separated. -/
theorem c1_pairwise_separation_witness :
    cfgA.min_distance ^ 2 ≤ ((dist2 ((0 : ℤ), (0 : ℤ)) ((9 : ℤ), (9 : ℤ)) : ℤ) : ℚ) :=
  c1_pairwise_separation cfgA stA rng0 0 4 3
    ⟨[((0 : ℤ), (0 : ℤ)), ((9 : ℤ), (9 : ℤ))], StopReason.regionEmpty, ⟨some [], []⟩⟩
    (by norm_num [cfgA]) (by decide)
    ((0 : ℤ), (0 : ℤ)) (by decide) ((9 : ℤ), (9 : ℤ)) (by decide) (by decide)

theorem rejectionLoop_polyC2 : ∀ fuel k : ℕ, rejectionLoop polyC2 rngC2 fuel k = none := by
  intro fuel
  induction fuel with
  | zero => intro k; rfl
  | succ n ih =>
    intro k
    have hcond : ((uniformInt (boundsOf polyC2).1 (boundsOf polyC2).2.2.1 (rngC2 k),
        uniformInt (boundsOf polyC2).2.1 (boundsOf polyC2).2.2.2 (rngC2 (k + 1))) : Cell)
        ∉ polyC2 := by
      simp only [rngC2]
      decide
    rw [rejectionLoop, if_neg hcond]
    exact ih (k + 2)

/-- C2: the claim states that the sampler's per-polygon rejection loop is
bounded by a fixed attempt cap and falls back to returning None when the
cap is exhausted everywhere.  The source contradicts this (the spec
mandates the cap as a correctness requirement, and the source even
carries the cap computation commented out at line 184): the
`while True:` loop of `get_random_point` has no cap.  On the concrete
one-polygon search area `[polyC2]` with the stream `rngC2` — every draw
falls on the uncontained bounding-box centre `(1,1)` — the sampler is
still running after any number of attempts, and in particular never
returns the 'no point found' value. -/
theorem c2_sampler_unbounded :
    ∀ fuel k : ℕ, get_random_point [polyC2] rngC2 k fuel = none := by
  intro fuel k
  have hE : explode [polyC2] = [polyC2] := by decide
  simp only [get_random_point, hE, rejectionLoop_polyC2 fuel k]

/-- C10: `get_random_point` returns Python's None exactly when the
exploded search area has zero polygons; whenever at least one polygon is
present it either returns a point contained in the search area or does
not return (the fuel runs out with the rejection loop still going). -/
theorem c10_sampler_none_iff (area : GDF) (rng : ℕ → ℕ) (k fuel : ℕ) :
    (get_random_point area rng k fuel = some none ↔ explode area = []) ∧
    (explode area ≠ [] →
      get_random_point area rng k fuel = none ∨
        ∃ p k2, get_random_point area rng k fuel = some (some (p, k2)) ∧ p ∈ unionGDF area) := by
  constructor
  · constructor
    · intro h
      cases hE : explode area with
      | nil => rfl
      | cons g rest =>
        simp only [get_random_point, hE] at h
        cases hR : rejectionLoop g rng fuel k with
        | none => simp only [hR] at h; exact Option.noConfusion h
        | some r =>
          simp only [hR] at h
          exact Option.noConfusion (Option.some.inj h)
    · intro hE
      simp [get_random_point, hE]
  · intro hne
    cases hE : explode area with
    | nil => exact absurd hE hne
    | cons g rest =>
      cases hR : rejectionLoop g rng fuel k with
      | none => exact Or.inl (by simp [get_random_point, hE, hR])
      | some r =>
        refine Or.inr ?_
        obtain ⟨p, k2⟩ := r
        refine ⟨p, k2, by simp [get_random_point, hE, hR], ?_⟩
        have hgmem : g ∈ explode area := by
          rw [hE]; exact List.mem_cons_self g rest
        exact mem_unionGDF.mpr ⟨g, (mem_explode_list.mp hgmem).1, rejectionLoop_mem hR⟩

/-- C10 witness: on the one-polygon area `area10` the sampler does not
return None — it returns the contained point `(1,1)`. -/
theorem c10_sampler_none_iff_witness :
    get_random_point area10 rng0 0 1 = none ∨
      ∃ p k2, get_random_point area10 rng0 0 1 = some (some (p, k2)) ∧ p ∈ unionGDF area10 :=
  (c10_sampler_none_iff area10 rng0 0 1).2 (by decide)

/-- C3: with the spec-mandated bounded per-polygon attempt budget (the
source's sampler lacks the cap, see C2; the capped sampler is modelled
from spec §4.3 with `max_attempts` as the budget), the packing loop
always halts: some finite fuel makes `generateCapped` return, and the
run ends with the target reached, the sampler reporting no point found,
the valid area empty, or — when PREFER_WITHIN layers exist — the caught
concat error that occurs exactly when the remaining valid area is empty.
The count of cells of the remaining area strictly decreases at every
acceptance, which bounds the number of loop iterations. -/
theorem c3_termination (cfg : GeneratorConfig) (st st1 : ValidatorState) (area1 : GDF)
    (rng : ℕ → ℕ) (k : ℕ) (hd : 0 ≤ cfg.min_distance)
    (hok : get_valid_area st = Except.ok (st1, area1)) :
    ∃ n out, generateCapped cfg st rng k n = some (Except.ok out) ∧
      (out.reason = StopReason.targetReached ∨
        out.reason = StopReason.regionEmpty ∨
        out.reason = StopReason.samplerNone ∨
        (out.reason = StopReason.errorCaught ∧
          ∀ va2, out.st.valid_area = some va2 → unionGDF va2 = ∅)) := by
  obtain ⟨va, hva⟩ := get_valid_area_ok_some hok
  have hst1 : st1.valid_area = some va := by
    rw [(get_valid_area_ok_state hok).1, hva]
  have hsub := get_valid_area_ok_subset hok hva
  obtain ⟨out, hout⟩ := genLoop_total hd ((unionGDF va).card + 1) hst1 hsub (by omega)
  refine ⟨(unionGDF va).card + 1, out, ?_, ?_⟩
  · simp only [generateCapped, hok]
    rw [hout]
    rfl
  · cases hr : out.reason with
    | targetReached => exact Or.inl rfl
    | regionEmpty => exact Or.inr (Or.inl rfl)
    | samplerNone => exact Or.inr (Or.inr (Or.inl rfl))
    | errorCaught =>
      exact Or.inr (Or.inr (Or.inr
        ⟨rfl, fun va2 hva2 => genLoop_error_caught_empty hout hr hva2⟩))

/-- C3 witness: the termination theorem applied to the concrete two-cell
area with `min_distance = 1`. -/
theorem c3_termination_witness :
    ∃ n out, generateCapped cfgA stA rng0 0 n = some (Except.ok out) ∧
      (out.reason = StopReason.targetReached ∨
        out.reason = StopReason.regionEmpty ∨
        out.reason = StopReason.samplerNone ∨
        (out.reason = StopReason.errorCaught ∧
          ∀ va2, out.st.valid_area = some va2 → unionGDF va2 = ∅)) :=
  c3_termination cfgA stA stA [geoAB] rng0 0 (by norm_num [cfgA]) (by decide)

/-- C4 counterexample: the claim says a PREFER_WITHIN constraint applied
before any MUST_WITHIN fails immediately at the moment the constraint is
applied.  It does not: on a fresh validator the call raises nothing
(error component `none`) and merely buffers the preference area. -/
theorem c4_counterexample :
    add_constraint initValidator cPref = (⟨none, [((1 : ℤ), prefGeo)]⟩, none) := by decide

/-- C4 amended: a MUST_OUTSIDE constraint applied before any MUST_WITHIN
fails immediately (ValueError, state unchanged) with zero points
produced; a PREFER_WITHIN constraint applied before any MUST_WITHIN does
NOT fail at application time — it is buffered without error — and the
`NoBaseRegion` configuration error surfaces only when the valid area is
first requested: `get_valid_area` raises, and a `generate` run from such
a state ends in the NameError of the except handler, with zero points
produced. -/
theorem c4_no_base_region (cfg : GeneratorConfig) (st : ValidatorState)
    (cO cP : SpatialConstraint) (h0 : st.valid_area = none)
    (hO : cO.ctype = ConstraintType.MUST_OUTSIDE)
    (hP : cP.ctype = ConstraintType.PREFER_WITHIN) :
    add_constraint st cO = (st, some PyErr.valueErrorNoBase) ∧
    (add_constraint st cP).2 = none ∧
    (add_constraint st cP).1.valid_area = none ∧
    (∀ st2 : ValidatorState, st2.valid_area = none →
      get_valid_area st2 = Except.error PyErr.valueErrorNoConstraints) ∧
    (∀ (st2 : ValidatorState) (rng : ℕ → ℕ) (k n m : ℕ), st2.valid_area = none →
      generate cfg st2 rng k n m = some (Except.error PyErr.nameErrorValidPoints)) := by
  refine ⟨?_, ?_, ?_, ?_, ?_⟩
  · simp [add_constraint, hO, h0]
  · simp [add_constraint, hP]
  · simp [add_constraint, hP, h0]
  · intro st2 h2
    simp [get_valid_area, h2]
  · intro st2 rng k n m h2
    simp [generate, get_valid_area, h2]

/-- C4 witness: the amended statement at the concrete fresh validator
with the concrete MUST_OUTSIDE and PREFER_WITHIN constraints. -/
theorem c4_no_base_region_witness :
    add_constraint initValidator cOut = (initValidator, some PyErr.valueErrorNoBase) ∧
    (add_constraint initValidator cPref).2 = none ∧
    (add_constraint initValidator cPref).1.valid_area = none ∧
    (∀ st2 : ValidatorState, st2.valid_area = none →
      get_valid_area st2 = Except.error PyErr.valueErrorNoConstraints) ∧
    (∀ (st2 : ValidatorState) (rng : ℕ → ℕ) (k n m : ℕ), st2.valid_area = none →
      generate cfgA st2 rng k n m = some (Except.error PyErr.nameErrorValidPoints)) :=
  c4_no_base_region cfgA initValidator cOut cPref rfl rfl rfl

/-- C5: the claim states that applying a MUST_OUTSIDE constraint on a
non-empty base region replaces the base by `difference(base, geom)`,
performs no other state change and does not fail.  The source contradicts
the last part: after updating the base, line 76 evaluates
`self.config.output_dir` to write the area to a file, but
`ConstraintValidator` never has a `config` attribute, so the call always
raises AttributeError (the state change to the difference has already
happened).  Concrete evaluation: base `[{(0,0),(9,9)}]` minus `{(9,9)}`
leaves `[{(0,0)}]` and the call raises. -/
theorem c5_must_outside_raises :
    add_constraint stA cOut9 =
      (⟨some [({((0 : ℤ), (0 : ℤ))} : Geo)], []⟩, some PyErr.attributeErrorNoConfig) := by
  decide

theorem layerLoop_eq_specLayers :
    ∀ (ps : List GDF) (rem : GDF),
      layerLoop rem ps =
        ((specLayers rem ps).1.filter (fun l => decide (l ≠ [])), (specLayers rem ps).2) := by
  intro ps
  induction ps with
  | nil => intro rem; rfl
  | cons p ps ih =>
    intro rem
    rw [layerLoop, specLayers, ih (overlayDifference rem p)]
    by_cases hI : overlayIntersection rem p = []
    · simp [hI, List.filter_cons]
    · simp [hI, List.filter_cons]

/-- C6 amended: with a base region present, `get_valid_area` builds
exactly the layered region described by the spec pipeline
(`specLayeredArea`: sort the preferences ascending by priority, take
`intersect(remaining, p_i)` as layer i while updating
`remaining := difference(remaining, p_i)`, keep only non-empty layers,
append the final remaining area last, concatenate and explode — so
higher-priority polygons precede lower-priority ones), EXCEPT in one
corner the claim misses: when preference areas are registered and every
layer and the remaining area are empty (nothing to concatenate, possible
only for an empty base), the code raises the `pd.concat([])` ValueError
instead of returning the empty layered region. -/
theorem c6_layered_region (st : ValidatorState) (va : GDF) (h : st.valid_area = some va) :
    (get_valid_area st = Except.error PyErr.valueErrorConcatEmpty ∧
      st.prefer_areas ≠ [] ∧ specLayeredArea va st.prefer_areas = []) ∨
    get_valid_area st = Except.ok
      ({ st with prefer_areas := sortPrefs st.prefer_areas },
        specLayeredArea va st.prefer_areas) := by
  obtain ⟨ova, oprefs⟩ := st
  simp only at h
  subst h
  simp only [get_valid_area]
  by_cases hp : sortPrefs oprefs = []
  · right
    rw [if_pos hp]
    have hspec : specLayeredArea va oprefs = explode va := by
      by_cases hv : va = []
      · simp [specLayeredArea, hp, specLayers, hv, explode]
      · simp [specLayeredArea, hp, specLayers, hv]
    rw [hspec]
  · rw [if_neg hp]
    have hops : oprefs ≠ [] := by
      intro hnil
      exact hp (by rw [hnil]; rfl)
    by_cases hcc : (layerLoop va ((sortPrefs oprefs).map Prod.snd)).1 ++
        (if (layerLoop va ((sortPrefs oprefs).map Prod.snd)).2 = [] then []
          else [(layerLoop va ((sortPrefs oprefs).map Prod.snd)).2]) = []
    · left
      rw [if_pos hcc]
      refine ⟨rfl, hops, ?_⟩
      rcases List.append_eq_nil.mp hcc with ⟨h1, h2⟩
      rw [layerLoop_eq_specLayers] at h1 h2
      have h1b : (specLayers va ((sortPrefs oprefs).map Prod.snd)).1.filter
          (fun l => decide (l ≠ [])) = [] := h1
      have h2b : (if (specLayers va ((sortPrefs oprefs).map Prod.snd)).2 = [] then []
          else [(specLayers va ((sortPrefs oprefs).map Prod.snd)).2]) = ([] : List GDF) := h2
      have hrem : (specLayers va ((sortPrefs oprefs).map Prod.snd)).2 = [] := by
        by_cases hr : (specLayers va ((sortPrefs oprefs).map Prod.snd)).2 = []
        · exact hr
        · rw [if_neg hr] at h2b
          exact absurd h2b (List.cons_ne_nil _ _)
      show explode (((specLayers va ((sortPrefs oprefs).map Prod.snd)).1.filter
          (fun l => decide (l ≠ [])) ++
          (if (specLayers va ((sortPrefs oprefs).map Prod.snd)).2 = [] then []
            else [(specLayers va ((sortPrefs oprefs).map Prod.snd)).2])).flatten) = []
      rw [h1b, if_pos hrem]
      rfl
    · right
      rw [if_neg hcc]
      have harea : explode (((layerLoop va ((sortPrefs oprefs).map Prod.snd)).1 ++
          (if (layerLoop va ((sortPrefs oprefs).map Prod.snd)).2 = [] then []
            else [(layerLoop va ((sortPrefs oprefs).map Prod.snd)).2])).flatten) =
          specLayeredArea va oprefs := by
        rw [layerLoop_eq_specLayers]
        rfl
      rw [harea]

/-- C6 counterexample: with an empty base (no rows) and one registered
preference area, `get_valid_area` raises the concat ValueError rather
than returning the layered region the claim describes (which would be
the empty region). -/
theorem c6_counterexample :
    get_valid_area stE = Except.error PyErr.valueErrorConcatEmpty ∧
      get_valid_area stE ≠ Except.ok
        ({ stE with prefer_areas := sortPrefs stE.prefer_areas },
          specLayeredArea [] stE.prefer_areas) := by
  decide

/-- C6 witness: the amended statement at a validator with two preference
areas registered out of priority order; the build succeeds and equals the
spec pipeline. -/
theorem c6_layered_region_witness :
    (get_valid_area stW = Except.error PyErr.valueErrorConcatEmpty ∧
      stW.prefer_areas ≠ [] ∧ specLayeredArea [geoW] stW.prefer_areas = []) ∨
    get_valid_area stW = Except.ok
      ({ stW with prefer_areas := sortPrefs stW.prefer_areas },
        specLayeredArea [geoW] stW.prefer_areas) :=
  c6_layered_region stW [geoW] rfl

/-- C7: every point accepted by the packing loop lies inside (the union
of the rows of) every MUST_WITHIN constraint geometry and outside every
MUST_OUTSIDE constraint geometry, for any run whose constraints were
applied with every MUST_OUTSIDE preceded by some MUST_WITHIN (the
documented protocol; a MUST_OUTSIDE with no base raises and is not
applied). -/
theorem c7_containment (cs : List SpatialConstraint) (cfg : GeneratorConfig) (rng : ℕ → ℕ)
    (k n m : ℕ) (out : GenOut)
    (horder : outsideAfterWithin false cs = true)
    (hgen : generate cfg (applyConstraints cs) rng k n m = some (Except.ok out)) :
    ∀ p ∈ out.points,
      (∀ c ∈ cs, c.ctype = ConstraintType.MUST_WITHIN → p ∈ unionGDF c.geometry) ∧
      (∀ c ∈ cs, c.ctype = ConstraintType.MUST_OUTSIDE → p ∉ unionGDF c.geometry) := by
  obtain ⟨st1, area1, hgv, hL⟩ := generate_ok_elim hgen
  obtain ⟨va, hva⟩ := get_valid_area_ok_some hgv
  have hst1 : st1.valid_area = some va := by
    rw [(get_valid_area_ok_state hgv).1, hva]
  have hsub := get_valid_area_ok_subset hgv hva
  intro p hp
  have hmem := genLoop_points (fun a j q k2 hs => get_random_point_mem hs) hL hst1 hsub p hp
  rcases hmem with hacc | hva2
  · exact absurd hacc (List.not_mem_nil p)
  · exact foldConstraints_good cs initValidator false horder
      (fun hc => absurd hc Bool.false_ne_true) hva p hva2

/-- C7 witness: one MUST_WITHIN over `{(0,0), (9,9)}` followed by one
MUST_OUTSIDE over `{(9,9)}`; the single accepted point `(0,0)` is inside
the former and outside the latter. -/
theorem c7_containment_witness :
    ((0 : ℤ), (0 : ℤ)) ∈ unionGDF [geoAB] ∧
      ((0 : ℤ), (0 : ℤ)) ∉ unionGDF cOut9.geometry :=
  ⟨(c7_containment csW cfgA rng0 0 3 3
      ⟨[((0 : ℤ), (0 : ℤ))], StopReason.regionEmpty, ⟨some [], []⟩⟩ (by decide) (by decide)
      ((0 : ℤ), (0 : ℤ)) (by decide)).1
      ⟨"w", [geoAB], ConstraintType.MUST_WITHIN, 0⟩ (by decide) rfl,
    (c7_containment csW cfgA rng0 0 3 3
      ⟨[((0 : ℤ), (0 : ℤ))], StopReason.regionEmpty, ⟨some [], []⟩⟩ (by decide) (by decide)
      ((0 : ℤ), (0 : ℤ)) (by decide)).2 cOut9 (by decide) rfl⟩

/-- C8 amended: the accepted point sequence is a function of the
configuration, the constraint state and the global random stream from
the position at which the run starts: two runs that start from the same
stream position of streams that agree from that position on produce
identical results.  (The random source itself is the implicit global
`random` module state — no seed parameter exists in `GeneratorConfig` or
`PointGenerator` — which is what the counterexample exhibits.) -/
theorem c8_determinism_from_seed (cfg : GeneratorConfig) (st : ValidatorState)
    (rng1 rng2 : ℕ → ℕ) (k n m : ℕ)
    (hag : ∀ j, k ≤ j → rng1 j = rng2 j) :
    generate cfg st rng1 k n m = generate cfg st rng2 k n m := by
  cases hgv : get_valid_area st with
  | error e => simp only [generate, hgv]
  | ok pr =>
    obtain ⟨st1, area1⟩ := pr
    simp only [generate, hgv]
    rw [genLoop_faith_agree hag]

/-- C8 witness: the amended determinism statement instantiated with the
same concrete stream on both sides. -/
theorem c8_determinism_from_seed_witness :
    generate cfgA stA rng0 0 4 3 = generate cfgA stA rng0 0 4 3 :=
  c8_determinism_from_seed cfgA stA rng0 rng0 0 4 3 (fun j _ => rfl)

/-- C8 counterexample: the random source is NOT an explicit, injectable
seed — `GeneratorConfig` carries no seed field and the sampler reads the
global `random` state.  With the global stream seeded once (`rngC8`) and
an identical configuration and constraint state, a first run (global
position 0) accepts `[(0,0)]` while a second run in the same process
(the global position has advanced to 2) accepts `[(10,10)]`: the
accepted sequence is not determined by the seed and the constraint set
through the generator's explicit inputs. -/
theorem c8_counterexample :
    (generate cfgC8 stC8 rngC8 0 3 3).map (Except.map GenOut.points) =
        some (Except.ok [((0 : ℤ), (0 : ℤ))]) ∧
      (generate cfgC8 stC8 rngC8 2 3 3).map (Except.map GenOut.points) =
        some (Except.ok [((10 : ℤ), (10 : ℤ))]) ∧
      ([((0 : ℤ), (0 : ℤ))] : List Cell) ≠ [((10 : ℤ), (10 : ℤ))] := by
  decide

/-- C9: once the initial `get_valid_area` call has succeeded, a
terminated `generate` run never surfaces an exception — it returns the
accepted points as a valid result — and whenever the packing loop stops
with a runtime sampling outcome (region empty or sampler reporting no
point), the returned list is exactly the accepted accumulator (the
points accepted so far), with no length requirement against the
configured target. -/
theorem c9_partial_result (cfg : GeneratorConfig) (st st1 : ValidatorState) (area1 : GDF)
    (rng : ℕ → ℕ) (k n m : ℕ)
    (h2 : get_valid_area st = Except.ok (st1, area1)) :
    (∀ res, generate cfg st rng k n m = some res → ∃ out, res = Except.ok out) ∧
    (∀ (fuel : ℕ) (area : GDF) (stL : ValidatorState) (kL : ℕ) (acc : List Cell) (out : GenOut),
      genLoop cfg (fun a j => get_random_point a rng j m) fuel area stL kL acc = some out →
      (out.reason = StopReason.regionEmpty ∨ out.reason = StopReason.samplerNone) →
      ∃ tail, out.points = acc ++ tail) := by
  constructor
  · intro res hres
    simp only [generate, h2] at hres
    cases hL : genLoop cfg (fun a j => get_random_point a rng j m) n area1 st1 k [] with
    | none => rw [hL] at hres; exact Option.noConfusion hres
    | some out =>
      rw [hL] at hres
      simp only [Option.map_some'] at hres
      exact ⟨out, (Option.some.inj hres).symm⟩
  · intro fuel area stL kL acc out hL _
    exact genLoop_acc_extends hL

/-- C9 witness: area of a single cell with a target of five points; the
run stops with the region empty after one accepted point, a valid
(smaller-than-requested) result. -/
theorem c9_partial_result_witness :
    (∀ res, generate cfg9 st9 rng0 0 3 3 = some res → ∃ out, res = Except.ok out) ∧
    (∀ (fuel : ℕ) (area : GDF) (stL : ValidatorState) (kL : ℕ) (acc : List Cell) (out : GenOut),
      genLoop cfg9 (fun a j => get_random_point a rng0 j 3) fuel area stL kL acc = some out →
      (out.reason = StopReason.regionEmpty ∨ out.reason = StopReason.samplerNone) →
      ∃ tail, out.points = acc ++ tail) :=
  c9_partial_result cfg9 st9 st9 [({((3 : ℤ), (3 : ℤ))} : Geo)] rng0 0 3 3 (by decide)
